import Mathlib

/-!
Shallow embedding of `src/view/model/track.rs` (crate `ngq`): the `Track`
struct with its preview buffer, analysis-progress computation and
live-preview windowing.

Conventions of the embedding:
* Machine integers (`usize`, `u64`, `u8`) are modelled as `Nat`; the
  magnitudes appearing in the claims are far below any wrap-around, and no
  wrapping arithmetic occurs in the modelled code (no `wrapping_*` ops).
  Saturating float-to-integer casts (`as u8`, `as usize`) are modelled
  explicitly where they occur.
* Rust panics (out-of-bounds slicing, `Option::unwrap` on `None`,
  integer division by zero) are modelled by returning `none` from an
  `Option`-valued function; the `some` branch is the non-panicking result.
* The `f32` slice bounds of `live_preview` are modelled faithfully: each
  `f32` conversion and arithmetic operation goes through `roundF32`,
  round-to-nearest-ties-to-even on a 24-bit significand over `ℚ` (with
  unbounded exponent: the overflow and subnormal thresholds of `f32` are
  far outside any magnitude these expressions can take).  This rounding is
  observable: beyond `2^24` samples the bounds drift and the window
  shrinks, and the theorems below exhibit that.
* The `f64` intermediates of `progress` and `preview` are modelled with
  exact rational arithmetic (explicit floor/ceil divisions over `Nat`).
  This idealises the last-ulp behaviour of `f64` — the true computation
  can differ by one at points where the rounded quotient straddles an
  integer — but every theorem below evaluates these functions only at
  points where the `f64` computation is exact, or ignores the numeric
  payload.  IEEE division by zero (`inf`/`NaN` and their saturating casts)
  is modelled by explicit case splits.
* The `RwLock` wrappers are elided: all claims are about the sequential
  contract, and every method acquires the lock only around a whole
  read/copy or a whole write, so the sequential semantics is the content
  of each method.
-/

/-- One downsampled preview sample: three energy bands (`f32` fields in the
source, modelled as exact rationals; the claims only ever compare stored
values, never compute with them). -/
structure PreviewSample where
  lows : ℚ
  mids : ℚ
  highs : ℚ
deriving DecidableEq, Repr

/-- The zero-valued sample `PreviewSample { mids: 0.0, lows: 0.0, highs: 0.0 }`
used by `live_preview` for edge padding. -/
def zeroSample : PreviewSample := { lows := 0, mids := 0, highs := 0 }

/-- Modelled from the spec: `PREVIEW_SAMPLES_PER_PACKET` (`K`) is declared in
`core::analyzer`, which is not among the provided source files.  The glossary
of the spec makes it the fixed number of preview samples the analyzer emits per
decoded packet, and every spec scenario uses `K = 4`. -/
def PREVIEW_SAMPLES_PER_PACKET : ℕ := 4

/-- Round a rational to the nearest integer, ties to even (the IEEE 754
default rounding applied to a scaled significand). -/
def roundHalfEven (q : ℚ) : ℤ :=
  if q - ⌊q⌋ < 1 / 2 then ⌊q⌋
  else if 1 / 2 < q - ⌊q⌋ then ⌊q⌋ + 1
  else if ⌊q⌋ % 2 = 0 then ⌊q⌋ else ⌊q⌋ + 1

/-- Round a rational to the nearest `f32` value: round-to-nearest-even on a
24-bit significand.  The exponent is unbounded — `f32` overflow (`≥ 2^128`)
and subnormals (`< 2^-126`) are unreachable for the values fed to this
function (naturals below `2^64` and their sums, differences and halvings),
so the normal-range rounding is the whole behaviour. -/
def roundF32 (q : ℚ) : ℚ :=
  if q = 0 then 0
  else
    (if q < 0 then -1 else 1) *
      (roundHalfEven (|q| * 2 ^ ((23 : ℤ) - Int.log 2 |q|)) : ℚ) *
        2 ^ (Int.log 2 |q| - 23)

/-- The Rust `as usize` cast of a float value: truncation toward zero,
saturating at `0` from below (for every `q > -1` truncation equals the
floor; for `q ≤ -1` both the true cast and `Int.toNat ∘ floor` give `0`; the
saturation at `usize::MAX` is unreachable at these magnitudes). -/
def f32_as_usize (q : ℚ) : ℕ := (⌊q⌋).toNat

/-- The slice of `symphonia::core::codecs::CodecParameters` that
`Track` reads: optional total frame count, optional maximum frames per
packet, and the optional channel set (only its count is ever used). -/
structure CodecParameters where
  n_frames : Option ℕ
  max_frames_per_packet : Option ℕ
  /-- `channels.count()`; `none` models absent channel information. -/
  channels : Option ℕ
deriving DecidableEq, Repr

/-- The `Track` struct.  `meta` and `file_name` carry no behaviour relevant
to the claims; `file_path` is kept as identity.  `preview_buffer` and
`estimated_samples_per_packet` are the lock-guarded mutable fields. -/
structure Track where
  file_path : String
  codec_params : CodecParameters
  preview_buffer : List PreviewSample
  estimated_samples_per_packet : Option ℕ
  analyzed : Bool
deriving DecidableEq, Repr

namespace Track

/-- `Track::set_estimated_samples_per_packet`: reads the current value and
writes the argument only when the current value is `None` (write-once). -/
def set_estimated_samples_per_packet (t : Track) (v : ℕ) : Track :=
  match t.estimated_samples_per_packet with
  | none => { t with estimated_samples_per_packet := some v }
  | some _ => t

/-- `Track::append_preview_samples`: appends the given samples to the tail of
the preview buffer (Rust `Vec::append` moves them; the buffer afterwards is
the old contents followed by the input). -/
def append_preview_samples (t : Track) (samples : List PreviewSample) : Track :=
  { t with preview_buffer := t.preview_buffer ++ samples }

/-- `Track::get_frames_per_packet`: `max_frames_per_packet`, or else the
estimated samples per packet, halved. -/
def get_frames_per_packet (t : Track) : Option ℕ :=
  (t.codec_params.max_frames_per_packet.or t.estimated_samples_per_packet).map
    (fun x => x / 2)

/-- `(a as f64 / b as f64 * 100.0).ceil() as u8` on naturals `a`, `b`:
exact rational arithmetic for `b ≠ 0` (so `ceil (100*a/b)` as a floor-division
formula), saturating `as u8` cast (values above `255` become `255`), and the
IEEE division-by-zero cases (`0/0` is `NaN`, cast to `0`; `a/0` with `a > 0`
is `+inf`, cast to `255`).  The exact-rational reading idealises the last
ulp of the `f64` quotient: at inputs where the rounded quotient crosses an
integer (such as `a = 7`, `b = 100`, where `f64` yields `7.000000000000001`
and hence ceiling `8`, against the exact `7`) the true program differs by
one; the theorems below evaluate this function only at inputs where the
`f64` product `(a/b)*100` rounds to exactly the mathematical value (`200`
and `20` at the evaluated points) or leave its value unconstrained. -/
def ceil_percent_as_u8 (a b : ℕ) : ℕ :=
  if b = 0 then (if a = 0 then 0 else 255)
  else min ((a * 100 + b - 1) / b) 255

/-- `Track::progress`: `Some 100` when analyzed, else the ceiling percentage
of analyzed frames over total frames when both a frames-per-packet value and
`n_frames` are known, else `None`. -/
def progress (t : Track) : Option ℕ :=
  if t.analyzed then some 100
  else
    match t.get_frames_per_packet, t.codec_params.n_frames with
    | some max_frames_per_packet, some n_frames =>
      let n_analyzed_packets := t.preview_buffer.length / PREVIEW_SAMPLES_PER_PACKET
      let n_analyzed_frames := n_analyzed_packets * max_frames_per_packet
      some (ceil_percent_as_u8 n_analyzed_frames n_frames)
    | _, _ => none

/-- `Track::n_packets`: `n_frames.unwrap() / frames_per_packet`.  The outer
`Option` is the panic model: `none` when `n_frames` is absent (`unwrap`
panics) or when the frames-per-packet value is `0` (`u64` division by zero
panics); the inner `Option` is the declared return type of the function. -/
def n_packets (t : Track) : Option (Option ℕ) :=
  match t.codec_params.n_frames with
  | none => none
  | some n_frames =>
    match t.get_frames_per_packet with
    | none => some none
    | some fpp => if fpp = 0 then none else some (some (n_frames / fpp))

/-- `Track::live_preview`: the fixed-position window into the preview buffer.
`none` models a slicing panic.  The slice bounds follow the source's `f32`
arithmetic operation by operation:
`l = (player_pos as f32 - (target_size as f32 / 2.0)) as usize` and
`r = (player_pos as f32 + (target_size as f32 / 2.0)) as usize`, where each
conversion to `f32` and each `f32` addition, subtraction and division result
is rounded by `roundF32` (round-to-nearest-even), and `as usize` truncates
via `f32_as_usize`. -/
def live_preview (t : Track) (target_size player_position playhead_position : ℕ) :
    Option (List PreviewSample) :=
  let preview_buffer := t.preview_buffer
  let player_pos := player_position * PREVIEW_SAMPLES_PER_PACKET
  -- `diff = player_pos as isize - (target_size / 2) as isize; if diff >= 0`
  if target_size / 2 ≤ player_pos then
    let pp32 := roundF32 (player_pos : ℚ)
    let half32 := roundF32 (roundF32 (target_size : ℚ) / 2)
    let l := f32_as_usize (roundF32 (pp32 - half32))
    let r := f32_as_usize (roundF32 (pp32 + half32))
    let r := min r preview_buffer.length
    -- `preview_buffer[l..r]` panics when `l > r`
    if l ≤ r then some ((preview_buffer.drop l).take (r - l)) else none
  else
    let diff := target_size / 2 - player_pos
    let padding := List.replicate diff zeroSample
    if 0 < preview_buffer.length then
      -- `preview_buffer[0..target_size - diff]` panics past the buffer end
      if target_size - diff ≤ preview_buffer.length then
        some (padding ++ preview_buffer.take (target_size - diff))
      else none
    else some padding

/-- `floor (target_size as f64 * (n_analyzed_frames as f64 / n_frames as f64
* 2.0)) as usize` from `Track::preview`: exact for `n_frames ≠ 0`; for
`n_frames = 0` the IEEE cases (`0 * inf` and `0/0` give `NaN`, cast to `0`;
otherwise `+inf`, saturating to `usize::MAX`). -/
def preview_scaled_size (target_size n_analyzed_frames n_frames : ℕ) : ℕ :=
  if n_frames = 0 then
    if target_size = 0 ∨ n_analyzed_frames = 0 then 0 else 2 ^ 64 - 1
  else target_size * (2 * n_analyzed_frames) / n_frames

/-- `Track::preview`: the static overview.  `none` models a panic
(`n_frames.unwrap()` on `None`, or `channels.unwrap()` on `None` when the
scaled size is positive).  Note that every non-panicking path of the source
returns the whole `preview_buffer`: the call that would downsample it to
`target_size` is commented out. -/
def preview (t : Track) (target_size : ℕ) : Option (List PreviewSample) :=
  match t.codec_params.n_frames with
  | none => none
  | some n_frames =>
    match t.get_frames_per_packet with
    | some frames_per_packet =>
      let preview_buffer := t.preview_buffer
      let n_analyzed_packets := preview_buffer.length / PREVIEW_SAMPLES_PER_PACKET
      let n_analyzed_frames := n_analyzed_packets * frames_per_packet
      let target_size2 := preview_scaled_size target_size n_analyzed_frames n_frames
      if 0 < target_size2 then
        match t.codec_params.channels with
        | none => none
        | some _ => some preview_buffer
      else some preview_buffer
    | none => some t.preview_buffer

end Track

/-! ### Concrete fixtures used by the scenario theorems and witnesses -/

/-- A nonzero preview sample, distinguishable from the padding value. -/
def sampleOne : PreviewSample := { lows := 1, mids := 1, highs := 1 }

/-- A second nonzero preview sample. -/
def sampleTwo : PreviewSample := { lows := 2, mids := 2, highs := 2 }

/-- Codec parameters reporting nothing. -/
def emptyCodec : CodecParameters :=
  { n_frames := none, max_frames_per_packet := none, channels := none }

/-- A freshly loaded track: empty buffer, no codec information, not analyzed. -/
def emptyTrack : Track :=
  { file_path := "a.mp3", codec_params := emptyCodec, preview_buffer := [],
    estimated_samples_per_packet := none, analyzed := false }

/-- Non-analyzed track with `n_frames = 100`, `max_frames_per_packet = 200`
(so a frames-per-packet value of `100`) and 8 buffered samples (2 packets). -/
def trackOverrun : Track :=
  { file_path := "b.mp3",
    codec_params := { n_frames := some 100, max_frames_per_packet := some 200,
                      channels := none },
    preview_buffer := List.replicate 8 sampleOne,
    estimated_samples_per_packet := none, analyzed := false }

/-- Non-analyzed track with `n_frames = 1000`, `max_frames_per_packet = 400`
(frames-per-packet value `200`), 2 channels and 8 buffered samples. -/
def trackPartial : Track :=
  { file_path := "c.mp3",
    codec_params := { n_frames := some 1000, max_frames_per_packet := some 400,
                      channels := some 2 },
    preview_buffer := List.replicate 8 sampleOne,
    estimated_samples_per_packet := none, analyzed := false }

/-- A track whose analysis has completed. -/
def analyzedTrack : Track :=
  { emptyTrack with file_path := "d.mp3", analyzed := true }

/-- The track of the progress scenario before any samples are appended:
`n_frames = 1000`, `max_frames_per_packet = 200`. -/
def trackScenarioBase : Track :=
  { file_path := "e.mp3",
    codec_params := { n_frames := some 1000, max_frames_per_packet := some 200,
                      channels := none },
    preview_buffer := [], estimated_samples_per_packet := none, analyzed := false }

/-- A track holding two distinguishable buffered samples. -/
def trackTwoSamples : Track :=
  { emptyTrack with
      file_path := "f.mp3"
      preview_buffer := [sampleOne, sampleTwo] }

/-- A track holding eleven buffered samples. -/
def trackEleven : Track :=
  { emptyTrack with
      file_path := "g.mp3"
      preview_buffer := List.replicate 11 sampleOne }

/-- A track whose buffer holds `2^24 + 1` samples: one sample past the
largest integer the `f32` significand can hold exactly. -/
def trackHuge : Track :=
  { emptyTrack with
      file_path := "h.mp3"
      preview_buffer := List.replicate 16777217 sampleOne }

/-! ### Rounding lemmas for the `f32` model -/

/-- Rounding an integer to the nearest integer is the identity. -/
theorem roundHalfEven_intCast (k : ℤ) : roundHalfEven (k : ℚ) = k := by
  simp [roundHalfEven]

/-- `roundF32` fixes zero. -/
theorem roundF32_zero : roundF32 0 = 0 := by
  simp [roundF32]

/-- A positive rational whose significand scaling is an integer is an exact
`f32` value: `roundF32` fixes it. -/
theorem roundF32_eq_self_of_scaled_intCast {q : ℚ} (hq : 0 < q) {k : ℤ}
    (hk : q * 2 ^ ((23 : ℤ) - Int.log 2 q) = (k : ℚ)) : roundF32 q = q := by
  rw [roundF32, if_neg hq.ne', if_neg (not_lt.mpr hq.le), abs_of_pos hq, hk,
    roundHalfEven_intCast, one_mul, ← hk, mul_assoc,
    ← zpow_add₀ (by norm_num : (2 : ℚ) ≠ 0)]
  simp

/-- Every natural number up to `2^24` is an exact `f32` value. -/
theorem roundF32_natCast (n : ℕ) (hn : n ≤ 2 ^ 24) : roundF32 (n : ℚ) = n := by
  rcases Nat.eq_zero_or_pos n with h0 | hpos
  · subst h0
    simpa using roundF32_zero
  · have hq : 0 < (n : ℚ) := by exact_mod_cast hpos
    have hlog : Int.log 2 (n : ℚ) = Nat.log 2 n := Int.log_natCast 2 n
    by_cases h24 : n < 2 ^ 24
    · have hle : Nat.log 2 n ≤ 23 := by
        by_contra hgt
        have h1 : (16777216 : ℕ) ≤ 2 ^ Nat.log 2 n := by
          calc (16777216 : ℕ) = 2 ^ 24 := by norm_num
          _ ≤ 2 ^ Nat.log 2 n := Nat.pow_le_pow_right (by norm_num) (by omega)
        have h2 : (2 : ℕ) ^ Nat.log 2 n ≤ n := Nat.pow_log_le_self 2 hpos.ne'
        have h3 : n < 16777216 := by
          calc n < 2 ^ 24 := h24
          _ = 16777216 := by norm_num
        omega
      have hcast : (23 : ℤ) - ((Nat.log 2 n : ℕ) : ℤ) = ((23 - Nat.log 2 n : ℕ) : ℤ) := by
        omega
      refine roundF32_eq_self_of_scaled_intCast hq
        (k := (n * 2 ^ (23 - Nat.log 2 n) : ℕ)) ?_
      rw [hlog, hcast, zpow_natCast]
      push_cast
      ring
    · have hn24 : n = 2 ^ 24 := le_antisymm hn (not_lt.mp h24)
      subst hn24
      refine roundF32_eq_self_of_scaled_intCast hq (k := 2 ^ 23) ?_
      rw [hlog, Nat.log_pow (by norm_num)]
      have hexp : (23 : ℤ) - ((24 : ℕ) : ℤ) = -1 := by norm_num
      rw [hexp, zpow_neg, zpow_one]
      push_cast
      norm_num

/-- The tie at the first unrepresentable integer: `2^24 + 1` lies exactly
between the `f32` neighbours `2^24` and `2^24 + 2`, and ties-to-even picks
`2^24`. -/
theorem roundF32_top_tie : roundF32 (16777217 : ℚ) = 16777216 := by
  have hnatlog : Nat.log 2 16777217 = 24 :=
    Nat.log_eq_of_pow_le_of_lt_pow (by norm_num) (by norm_num)
  have hlog : Int.log 2 (16777217 : ℚ) = 24 := by
    rw [show (16777217 : ℚ) = ((16777217 : ℕ) : ℚ) from by norm_num,
      Int.log_natCast, hnatlog]
    norm_num
  have habs : |(16777217 : ℚ)| = 16777217 := by norm_num
  rw [roundF32, if_neg (by norm_num), if_neg (by norm_num), habs, hlog]
  have hexp : (23 : ℤ) - 24 = -1 := by norm_num
  rw [hexp, zpow_neg, zpow_one]
  have harg : (16777217 : ℚ) * 2⁻¹ = 16777217 / 2 := by ring
  have hfloor : ⌊(16777217 : ℚ) / 2⌋ = 8388608 := by
    rw [Int.floor_eq_iff]
    norm_num
  have hhe : roundHalfEven ((16777217 : ℚ) / 2) = 8388608 := by
    unfold roundHalfEven
    rw [hfloor]
    norm_num
  rw [harg, hhe]
  norm_num

/-- `as usize` of an exactly-represented natural is that natural. -/
theorem f32_as_usize_natCast (n : ℕ) : f32_as_usize (n : ℚ) = n := by
  simp [f32_as_usize]

/-- Evaluating `live_preview` just past the `f32`-exact range, on any track
whose buffer holds `2^24 + 1` samples, at `player_position = 4194304` packets
(`player_pos = 2^24`) and `target_size = 2`: the left bound is exact
(`2^24 - 1`) but the right bound is the tie `2^24 + 1`, rounded to `2^24`,
so the returned window is the single sample at index `2^24 - 1`. -/
theorem live_preview_at_pow24 (t : Track)
    (hlen : t.preview_buffer.length = 16777217) :
    t.live_preview 2 4194304 0 =
      some ((t.preview_buffer.drop 16777215).take 1) := by
  have hr2 : roundF32 (2 : ℚ) = 2 := by
    have h := roundF32_natCast 2 (by norm_num)
    norm_num at h
    exact h
  have hr1 : roundF32 (1 : ℚ) = 1 := by
    have h := roundF32_natCast 1 (by norm_num)
    norm_num at h
    exact h
  have hr16 : roundF32 (16777216 : ℚ) = 16777216 := by
    have h := roundF32_natCast 16777216 (by norm_num)
    norm_num at h
    exact h
  have hr15 : roundF32 (16777215 : ℚ) = 16777215 := by
    have h := roundF32_natCast 16777215 (by norm_num)
    norm_num at h
    exact h
  have hu15 : f32_as_usize (16777215 : ℚ) = 16777215 := by
    have h := f32_as_usize_natCast 16777215
    norm_num at h
    exact h
  have hu16 : f32_as_usize (16777216 : ℚ) = 16777216 := by
    have h := f32_as_usize_natCast 16777216
    norm_num at h
    exact h
  simp only [Track.live_preview, PREVIEW_SAMPLES_PER_PACKET]
  rw [hlen]
  rw [if_pos (show (2 : ℕ) / 2 ≤ 4194304 * 4 from by norm_num)]
  have hc1 : ((4194304 * 4 : ℕ) : ℚ) = 16777216 := by norm_num
  have hc2 : ((2 : ℕ) : ℚ) = 2 := by norm_num
  rw [hc1, hc2, hr16, hr2]
  rw [show (2 : ℚ) / 2 = 1 from by norm_num]
  rw [hr1]
  rw [show (16777216 : ℚ) - 1 = 16777215 from by norm_num]
  rw [show (16777216 : ℚ) + 1 = 16777217 from by norm_num]
  rw [hr15, roundF32_top_tie, hu15, hu16]
  rw [show (16777216 : ℕ) ⊓ 16777217 = 16777216 from by norm_num [Nat.min_def]]
  rw [if_pos (show (16777215 : ℕ) ≤ 16777216 from by norm_num)]

/-! ### Claim theorems -/

/-- C1: the claim says `live_preview` always returns exactly `target_size`
elements, and in particular 10 zero samples for an empty buffer with
`target_size = 10` and `player_position = 0`.  Evaluating the embedding at
that very input: the source returns only `target_size / 2 = 5` zero samples
(the left padding alone, with nothing to extend it from an empty buffer), so
the code falls short of the length contract the spec mandates. -/
theorem C1_live_preview_short_on_empty_buffer :
    Track.live_preview emptyTrack 10 0 0 = some (List.replicate 5 zeroSample) ∧
      (List.replicate 5 zeroSample).length = 5 := by
  constructor
  · rfl
  · rfl

/-- C2: the claim says the progress percentage is clamped to `[0, 100]` and
never exceeds `100` (as the doc comment of `Track::progress` also promises).
Evaluating the embedding on a non-analyzed track whose buffer already holds
more packets than the reported track length (`n_frames = 100`,
frames-per-packet `100`, 2 packets buffered): the source returns `200`. -/
theorem C2_progress_exceeds_100 : Track.progress trackOverrun = some 200 := by
  rfl

/-- C3: the claim says `preview(target_size)` returns exactly
`floor(progress_fraction * target_size)` samples from the front of the buffer
when analysis is incomplete.  Evaluating the embedding: for `trackPartial`
(8 buffered samples, 2 packets of 200 frames each, `n_frames = 1000`, so a
progress fraction of `0.4`) and `target_size = 4`, the claim asks for
`floor(0.4 * 4) = 1` sample, but the source returns the whole 8-sample
buffer (the downsampling call is commented out). -/
theorem C3_preview_returns_whole_buffer :
    Track.preview trackPartial 4 = some trackPartial.preview_buffer ∧
      trackPartial.preview_buffer.length = 8 := by
  constructor
  · rfl
  · rfl

/-- C5: scenario with `n_frames = 1000`, a frames-per-packet value of `100`
(codec-reported `max_frames_per_packet = 200`, halved) and `K = 4`: after
appending 2 packets worth of preview samples (8 samples), `progress()`
returns `Some 20`. -/
theorem C5_progress_scenario :
    Track.get_frames_per_packet trackScenarioBase = some 100 ∧
      Track.progress
        (Track.append_preview_samples trackScenarioBase
          (List.replicate 8 sampleOne)) = some 20 := by
  constructor
  · rfl
  · rfl

/-- C7: `set_estimated_samples_per_packet` is first-write-wins: for every
track and every `v1`, `v2`, setting `v1` and then `v2` yields exactly the
state reached by setting `v1` alone (the second call is a no-op). -/
theorem C7_set_estimated_first_write_wins (t : Track) (v1 v2 : ℕ) :
    (t.set_estimated_samples_per_packet v1).set_estimated_samples_per_packet v2
      = t.set_estimated_samples_per_packet v1 := by
  unfold Track.set_estimated_samples_per_packet
  cases h : t.estimated_samples_per_packet <;> simp [h]

/-- C8: `playhead_position` never influences the result of `live_preview`:
the two results agree for any pair of playhead values, all else equal. -/
theorem C8_playhead_noninterference (t : Track)
    (target_size player_position p1 p2 : ℕ) :
    t.live_preview target_size player_position p1
      = t.live_preview target_size player_position p2 := rfl

/-- C9: the preview buffer is append-only: `append_preview_samples` puts the
input at the tail (old contents are a stable prefix, length grows by the
input length), and `set_estimated_samples_per_packet` — the only other
state-changing operation of `Track`; `progress`, `live_preview`, `preview`
and `n_packets` take the state immutably — leaves the buffer unchanged. -/
theorem C9_buffer_append_only (t : Track) (samples : List PreviewSample) (v : ℕ) :
    (t.append_preview_samples samples).preview_buffer
        = t.preview_buffer ++ samples ∧
      (t.append_preview_samples samples).preview_buffer.length
        = t.preview_buffer.length + samples.length ∧
      (t.append_preview_samples samples).preview_buffer.take
          t.preview_buffer.length = t.preview_buffer ∧
      (t.set_estimated_samples_per_packet v).preview_buffer = t.preview_buffer := by
  refine ⟨rfl, ?_, ?_, ?_⟩
  · simp [Track.append_preview_samples]
  · simp [Track.append_preview_samples]
  · unfold Track.set_estimated_samples_per_packet
    cases h : t.estimated_samples_per_packet <;> simp

/-- C4: `progress()` is `None` exactly when the track is not analyzed and
either `n_frames` or a frames-per-packet value (codec-reported
`max_frames_per_packet` or the externally-set estimate) is unknown; and an
analyzed track reports `Some 100` regardless of buffer contents. -/
theorem C4_progress_none_iff (t : Track) :
    (t.progress = none ↔
      t.analyzed = false ∧
        (t.codec_params.n_frames = none ∨
          (t.codec_params.max_frames_per_packet = none ∧
            t.estimated_samples_per_packet = none))) ∧
      (t.analyzed = true → t.progress = some 100) := by
  constructor
  · unfold Track.progress Track.get_frames_per_packet
    cases ha : t.analyzed
    · cases hm : t.codec_params.max_frames_per_packet <;>
        cases he : t.estimated_samples_per_packet <;>
          cases hn : t.codec_params.n_frames <;>
            simp [Option.or, ha, hm, he, hn]
    · simp [ha]
  · intro h
    unfold Track.progress
    simp [h]

/-- C4 witness: the analyzed fixture reports exactly `Some 100`. -/
theorem C4_progress_none_iff_witness :
    analyzedTrack.analyzed = true ∧ analyzedTrack.progress = some 100 :=
  ⟨rfl, (C4_progress_none_iff analyzedTrack).2 rfl⟩

/-- C6 counterexample: for the odd width `target_size = 3` and a buffer of
two samples (so the buffer holds at least `3 / 2 = 1` sample, as the claim
assumes), the result is not `half` zeros followed by `buffer[0 .. 3/2]`: the
source extends the padding with `target_size - diff = 2` buffered samples,
one more than the claimed `target_size / 2 = 1`. -/
theorem C6_odd_width_counterexample :
    (3 : ℕ) / 2 ≤ trackTwoSamples.preview_buffer.length ∧
      Track.live_preview trackTwoSamples 3 0 0 ≠
        some (List.replicate (3 / 2) zeroSample ++
          trackTwoSamples.preview_buffer.take (3 / 2)) := by
  refine ⟨by decide, by decide⟩

/-- C6 amended: for every track and every EVEN `target_size` with
`player_position = 0`, when the buffer holds at least `target_size / 2`
samples the result is `target_size / 2` zero samples followed by
`buffer[0 .. target_size / 2]`.  (For odd widths the source takes
`target_size - target_size / 2` buffered samples instead, one more than the
claim states.) -/
theorem C6_even_start_window (t : Track) (target_size playhead : ℕ)
    (hev : Even target_size)
    (hlen : target_size / 2 ≤ t.preview_buffer.length) :
    t.live_preview target_size 0 playhead =
      some (List.replicate (target_size / 2) zeroSample ++
        t.preview_buffer.take (target_size / 2)) := by
  obtain ⟨k, hk⟩ := hev
  subst hk
  have hhalf : (k + k) / 2 = k := by omega
  rw [hhalf] at hlen ⊢
  rcases Nat.eq_zero_or_pos k with hk0 | hkpos
  · subst hk0
    simp [Track.live_preview, roundF32_zero, f32_as_usize]
  · have hpos : 0 < t.preview_buffer.length := lt_of_lt_of_le hkpos hlen
    simp only [Track.live_preview, hhalf, Nat.zero_mul, Nat.sub_zero]
    rw [if_neg (by omega), if_pos hpos,
      if_pos (show k + k - k ≤ t.preview_buffer.length by omega)]
    rw [show k + k - k = k from by omega]

/-- C6 witness: the amended statement at `target_size = 4`, `playhead = 7`
on the two-sample fixture. -/
theorem C6_even_start_window_witness :
    (4 : ℕ) / 2 ≤ trackTwoSamples.preview_buffer.length ∧
      Track.live_preview trackTwoSamples 4 0 7 =
        some (List.replicate (4 / 2) zeroSample ++
          trackTwoSamples.preview_buffer.take (4 / 2)) :=
  ⟨by decide, C6_even_start_window trackTwoSamples 4 7 ⟨2, rfl⟩ (by decide)⟩

/-- C10 counterexample: the claim quantifies over every track state with no
magnitude bound, but the `f32` slice bounds stop being exact past `2^24`
samples.  At `target_size = 2` (even), `player_position = 4194304` packets
(so `player_pos = 2^24`) on a buffer of `2^24 + 1` samples — inside the
claimed precondition, `2^24 + 1 ≥ 2^24 + 2/2` — the right bound
`2^24 as f32 + 1.0` is the tie `2^24 + 1`, which rounds to `2^24`
(ties-to-even), so the slice `[2^24 - 1, 2^24)` holds one sample and the
program returns 1 element, not `target_size = 2`. -/
theorem C10_f32_rounding_counterexample :
    Even 2 ∧
      4194304 * PREVIEW_SAMPLES_PER_PACKET + 2 / 2
        ≤ trackHuge.preview_buffer.length ∧
      Track.live_preview trackHuge 2 4194304 0 = some (List.replicate 1 sampleOne) ∧
      (List.replicate 1 sampleOne).length ≠ 2 := by
  have hbuf : trackHuge.preview_buffer = List.replicate 16777217 sampleOne := rfl
  have hblen : trackHuge.preview_buffer.length = 16777217 := by
    rw [hbuf, List.length_replicate]
  refine ⟨⟨1, rfl⟩, ?_, ?_, by decide⟩
  · rw [hblen]
    norm_num [PREVIEW_SAMPLES_PER_PACKET]
  · rw [live_preview_at_pow24 trackHuge hblen, hbuf, List.drop_replicate,
      List.take_replicate]
    norm_num [Nat.min_def]

/-- C10 amended: for every even `target_size`, whenever the buffer holds at
least `player_position * K + target_size / 2` samples AND the window lies in
the range where `f32` arithmetic on the slice bounds is exact
(`player_position * K + target_size ≤ 2^24`), both slices of `live_preview`
stay in bounds (the panic branches, modelled as `none`, are unreachable) and
the result has exactly `target_size` elements.  (Past `2^24` the `f32`
rounding of the bounds can shrink the window, as the counterexample
shows.) -/
theorem C10_live_preview_in_bounds_exact_range (t : Track)
    (target_size player_position playhead : ℕ) (hev : Even target_size)
    (hmag : player_position * PREVIEW_SAMPLES_PER_PACKET + target_size ≤ 2 ^ 24)
    (hlen : player_position * PREVIEW_SAMPLES_PER_PACKET + target_size / 2
      ≤ t.preview_buffer.length) :
    ∃ res, t.live_preview target_size player_position playhead = some res ∧
      res.length = target_size := by
  obtain ⟨k, hk⟩ := hev
  subst hk
  have hhalf : (k + k) / 2 = k := by omega
  rw [hhalf] at hlen
  have h24 : (2 : ℕ) ^ 24 = 16777216 := by norm_num
  rw [h24] at hmag
  simp only [Track.live_preview, hhalf]
  set pp := player_position * PREVIEW_SAMPLES_PER_PACKET with hpp
  by_cases hc : k ≤ pp
  · rw [if_pos hc]
    have hts : roundF32 ((k + k : ℕ) : ℚ) = ((k + k : ℕ) : ℚ) :=
      roundF32_natCast _ (by rw [h24]; omega)
    have hhalfq : ((k + k : ℕ) : ℚ) / 2 = ((k : ℕ) : ℚ) := by
      push_cast
      ring
    have hkf : roundF32 ((k : ℕ) : ℚ) = ((k : ℕ) : ℚ) :=
      roundF32_natCast _ (by rw [h24]; omega)
    have hppf : roundF32 ((pp : ℕ) : ℚ) = ((pp : ℕ) : ℚ) :=
      roundF32_natCast _ (by rw [h24]; omega)
    have hsubq : ((pp : ℕ) : ℚ) - ((k : ℕ) : ℚ) = ((pp - k : ℕ) : ℚ) :=
      (Nat.cast_sub hc).symm
    have hsubf : roundF32 ((pp - k : ℕ) : ℚ) = ((pp - k : ℕ) : ℚ) :=
      roundF32_natCast _ (by rw [h24]; omega)
    have haddq : ((pp : ℕ) : ℚ) + ((k : ℕ) : ℚ) = ((pp + k : ℕ) : ℚ) := by
      push_cast
      ring
    have haddf : roundF32 ((pp + k : ℕ) : ℚ) = ((pp + k : ℕ) : ℚ) :=
      roundF32_natCast _ (by rw [h24]; omega)
    rw [hppf, hts, hhalfq, hkf, hsubq, hsubf, haddq, haddf]
    simp only [f32_as_usize_natCast]
    rw [min_eq_left (show pp + k ≤ t.preview_buffer.length from hlen),
      if_pos (show pp - k ≤ pp + k from by omega)]
    refine ⟨_, rfl, ?_⟩
    rw [List.length_take, List.length_drop,
      min_eq_left (show pp + k - (pp - k) ≤ t.preview_buffer.length - (pp - k)
        from by omega)]
    omega
  · rw [if_neg hc]
    rw [if_pos (show 0 < t.preview_buffer.length from by omega),
      if_pos (show k + k - (k - pp) ≤ t.preview_buffer.length from by omega)]
    refine ⟨_, rfl, ?_⟩
    rw [List.length_append, List.length_replicate, List.length_take,
      min_eq_left (show k + k - (k - pp) ≤ t.preview_buffer.length from by omega)]
    omega

/-- C10 witness: the eleven-sample fixture with `target_size = 6`,
`player_position = 2` (`2 * 4 + 3 = 11` samples needed and present, and
`2 * 4 + 6 = 14` well inside the `f32`-exact range), `playhead = 9`: the
window exists and has exactly 6 elements. -/
theorem C10_live_preview_in_bounds_exact_range_witness :
    2 * PREVIEW_SAMPLES_PER_PACKET + 6 ≤ 2 ^ 24 ∧
      2 * PREVIEW_SAMPLES_PER_PACKET + 6 / 2 ≤ trackEleven.preview_buffer.length ∧
      ∃ res, Track.live_preview trackEleven 6 2 9 = some res ∧ res.length = 6 :=
  ⟨by norm_num [PREVIEW_SAMPLES_PER_PACKET], by decide,
    C10_live_preview_in_bounds_exact_range trackEleven 6 2 9 ⟨3, rfl⟩
      (by norm_num [PREVIEW_SAMPLES_PER_PACKET]) (by decide)⟩
